import Mathlib

/-!
Verification development for the garbanzo ledger aggregation engine
(`garbanzo/ledger.py`, `garbanzo/config.py`).

The Python code is shallowly embedded: pandas dataframes become lists of
records, pandas series become total functions from keys to rational values
together with an explicit index list of the keys that actually occur, and
float amounts become exact rationals (the spec states that summation is
exact).  Dates are calendar triples; the bucketing rule of
`pandas.Grouper(freq=...)` (library code outside the repository) is modelled
from the spec: daily → calendar day, weekly → calendar week,
monthly/quarterly/yearly → period start.
-/

/-- A calendar date (pandas timestamps are only constructed, compared and
bucketed by the core, so a calendar triple is a faithful model). -/
structure Date where
  year : Int
  month : Int
  day : Int
deriving DecidableEq, Repr

/-- Chronological (lexicographic) comparison of dates, as pandas timestamp
`<=`. -/
def Date.ble (a b : Date) : Bool :=
  decide (a.year < b.year) ||
    (decide (a.year = b.year) &&
      (decide (a.month < b.month) ||
        (decide (a.month = b.month) && decide (a.day ≤ b.day))))

/-- Days since 1970-01-01 of a civil date (Hinnant's civil-from-days
algorithm, floor division). Used only to model weekly bucketing. -/
def Date.toDays (dt : Date) : Int :=
  let y := dt.year - (if dt.month ≤ 2 then 1 else 0)
  let era := Int.fdiv y 400
  let yoe := y - era * 400
  let mp := if dt.month > 2 then dt.month - 3 else dt.month + 9
  let doy := (153 * mp + 2).fdiv 5 + dt.day - 1
  let doe := yoe * 365 + yoe.fdiv 4 - yoe.fdiv 100 + doy
  era * 146097 + doe - 719468

/-- Civil date of a day number (inverse of `Date.toDays`). -/
def Date.ofDays (z : Int) : Date :=
  let z' := z + 719468
  let era := z'.fdiv 146097
  let doe := z' - era * 146097
  let yoe := (doe - doe.fdiv 1460 + doe.fdiv 36524 - doe.fdiv 146096).fdiv 365
  let y := yoe + era * 400
  let doy := doe - (365 * yoe + yoe.fdiv 4 - yoe.fdiv 100)
  let mp := (5 * doy + 2).fdiv 153
  let d := doy - (153 * mp + 2).fdiv 5 + 1
  let m := if mp < 10 then mp + 3 else mp - 9
  ⟨y + (if m ≤ 2 then 1 else 0), m, d⟩

/-- The five time grains of `TimeGrain` (ledger.py lines 81-104). -/
inductive TimeGrain where
  | daily
  | weekly
  | monthly
  | quarterly
  | yearly
deriving DecidableEq, Repr

/-- `TimeGrain.frequency` (ledger.py lines 92-104): the pandas frequency
string of each grain. -/
def TimeGrain.frequency : TimeGrain → String
  | .daily => "D"
  | .weekly => "W"
  | .monthly => "MS"
  | .quarterly => "QS"
  | .yearly => "YS"

/-- Modelled from the spec: the period-start bucketing rule that
`pandas.Grouper(key = 'date', freq = grain.frequency)` applies (pandas is
library code outside this repository; spec section 4.2: daily → calendar
day, weekly → calendar week, monthly → calendar-month start, quarterly →
calendar-quarter start, yearly → calendar-year start). -/
def TimeGrain.periodStart : TimeGrain → Date → Date
  | .daily, dt => dt
  | .weekly, dt => Date.ofDays (dt.toDays - (dt.toDays).emod 7)
  | .monthly, dt => ⟨dt.year, dt.month, 1⟩
  | .quarterly, dt => ⟨dt.year, 3 * ((dt.month - 1).fdiv 3) + 1, 1⟩
  | .yearly, dt => ⟨dt.year, 1, 1⟩

/-- Splitting a character list at every `':'` (Python `str.split(':')`
semantics: `"".split(':') == ['']`, separators are not kept). -/
def splitChars : List Char → List (List Char)
  | [] => [[]]
  | c :: cs =>
    if c = ':' then [] :: splitChars cs
    else
      match splitChars cs with
      | [] => [[c]]
      | g :: gs => (c :: g) :: gs

/-- Joining character-list segments with `':'` (Python `':'.join`). -/
def joinChars : List (List Char) → List Char
  | [] => []
  | [g] => g
  | g :: g' :: gs => g ++ ':' :: joinChars (g' :: gs)

/-- `split_account` (ledger.py lines 24-25): `account.split(':')`. -/
def split_account (account : String) : List String :=
  (splitChars account.data).map fun g => ⟨g⟩

/-- `':'.join(parts)` as used by `account_at_depth` (ledger.py line 28). -/
def joinColon (parts : List String) : String :=
  ⟨joinChars (parts.map String.data)⟩

/-- Python list slicing `l[:depth]`: a nonnegative depth takes the first
`depth` elements, a negative depth drops the last `|depth|` elements. -/
def pyTake {α : Type} (depth : Int) (l : List α) : List α :=
  if 0 ≤ depth then l.take depth.toNat else l.take (l.length - (-depth).toNat)

/-- `account_at_depth` (ledger.py lines 27-28):
`':'.join(split_account(account)[:depth])`. -/
def account_at_depth (account : String) (depth : Int) : String :=
  joinColon (pyTake depth (split_account account))

/-- Python `str.startswith`, i.e. the raw string comparison performed by
`postings.account.str.startswith(account_prefix)` (ledger.py line 195). -/
def startsWithChars : List Char → List Char → Bool
  | _, [] => true
  | [], _ :: _ => false
  | c :: cs, d :: ds => decide (c = d) && startsWithChars cs ds

/-- Raw string starts-with of the source (ledger.py line 195). -/
def py_startswith (s pat : String) : Bool :=
  startsWithChars s.data pat.data

/-- Segment-boundary account matching, following the spec's words
(section 4.6 step 1): the account path equals the given path or extends it
at a colon segment boundary.  This definition follows the spec, not the
source, so that the source's raw starts-with can be compared against it. -/
def segmentPfx (pfx account : String) : Bool :=
  decide (account = pfx) || py_startswith account (pfx ++ ":")

/-- Python `key.replace('-', '_')` for the single-character pattern used by
`Ledger.make_config` (ledger.py line 136); a single-character replace is a
character-wise map. -/
def underscoreName (s : String) : String :=
  ⟨s.data.map fun c => if c = '-' then '_' else c⟩

/-- A `Transaction` row (ledger.py lines 31-37).  Tag and link sets are
modelled as lists; metadata carries string keys and values. -/
structure Transaction where
  date : Date
  payee : Option String := none
  narration : Option String := none
  tags : List String := []
  links : List String := []
  meta : Option (List (String × String)) := none
deriving DecidableEq, Repr

/-- A `Posting` row (ledger.py lines 44-55).  Amounts are exact rationals
(the spec states summation is exact).  The source annotates
`cost_currency`/`price_currency` as `Optional[float]` but
`Posting.from_beancount` stores currency strings in them. -/
structure Posting where
  txn_id : Nat
  date : Date
  account : String
  amount : ℚ
  currency : String
  cost : Option ℚ := none
  cost_currency : Option String := none
  price : Option ℚ := none
  price_currency : Option String := none
  meta : Option (List (String × String)) := none
deriving DecidableEq, Repr

/-- A `Price` row (ledger.py lines 70-74). -/
structure Price where
  date : Date
  currency : String
  amount : ℚ
  conv_currency : String
deriving DecidableEq, Repr

/-- `FilterOptions` (ledger.py lines 107-110). -/
structure FilterOptions where
  min_date : Option Date := none
  max_date : Option Date := none
deriving DecidableEq, Repr

/-- `FilterOptions.filter_dataframe` (ledger.py lines 112-118): the rows
whose date is `>= min_date` (when set) and `<= max_date` (when set), in
their original order.  `date` projects the date column of the row type. -/
def FilterOptions.filter_dataframe {α : Type} (fo : FilterOptions)
    (date : α → Date) (df : List α) : List α :=
  let df' :=
    match fo.min_date with
    | none => df
    | some m => df.filter fun r => Date.ble m (date r)
  match fo.max_date with
  | none => df'
  | some m => df'.filter fun r => Date.ble (date r) m

/-- `matches` of the spec (section 4.3): true iff `min_date` is absent or
`min_date <= date`, and `max_date` is absent or `date <= max_date`. -/
def FilterOptions.matches (fo : FilterOptions) (d : Date) : Bool :=
  (match fo.min_date with
   | none => true
   | some m => Date.ble m d) &&
  (match fo.max_date with
   | none => true
   | some m => Date.ble d m)

/-- The option-map entries the core reads (`operating_currency` and the
`name_<category>` display names).  beancount's option map always defines
these keys; the defaults below are beancount's defaults. -/
structure LedgerOptions where
  operating_currency : List String := []
  name_assets : String := "Assets"
  name_liabilities : String := "Liabilities"
  name_income : String := "Income"
  name_expenses : String := "Expenses"
  name_equity : String := "Equity"
deriving DecidableEq, Repr

/-- `GarbanzoConfig` (config.py lines 14-18): optional default start date,
optional non-negative default account depth (default 3), accumulated
income-deduction account list. -/
structure GarbanzoConfig where
  default_start_date : Option Date := none
  default_account_depth : Option Int := some 3
  income_deduction_accounts : List String := []
deriving DecidableEq, Repr

/-- A typed custom-directive value (beancount custom values are typed). -/
inductive CVal where
  | str (s : String)
  | int (n : Int)
  | date (dt : Date)
deriving DecidableEq, Repr

/-- A beancount `Custom` directive: its directive-type string and its
ordered value list. -/
structure Custom where
  type : String
  values : List CVal
deriving DecidableEq, Repr

/-- The error kinds of the engine (spec section 7).  The embedding surfaces
Python exceptions through `Except`. -/
inductive GarbanzoError where
  | UnknownAccountType
  | InvalidConfig
  | MalformedDirective
deriving DecidableEq, Repr

/-- Python dict assignment `d[k] = v`, as a finite map: any entry under the
key is dropped and the new binding appended.  (A Python dict overwrite keeps
the key's original insertion position, but the dict built by `make_config`
is only ever consumed through keyword expansion and key lookup, for which
the binding position is immaterial.) -/
def dictInsert (d : List (String × CVal)) (k : String) (v : CVal) :
    List (String × CVal) :=
  (d.filter fun kv => !(kv.1 == k)) ++ [(k, v)]

/-- The directive-scanning loop of `Ledger.make_config` (ledger.py lines
131-141): entries of type `garbanzo-option` are destructured into
`[key, val]`; the key `income-deduction-account` appends to the accumulator
list, every other key is assigned into the config dict.  A directive whose
values are not a string key followed by one value raises in Python
(`ValueError`/`AttributeError`), surfaced here as `MalformedDirective`. -/
def collectConfig : List Custom → List (String × CVal) → List CVal →
    Except GarbanzoError (List (String × CVal) × List CVal)
  | [], d, ded => .ok (d, ded)
  | e :: rest, d, ded =>
    if e.type == "garbanzo-option" then
      match e.values with
      | [CVal.str key, v] =>
        if underscoreName key == "income_deduction_account" then
          collectConfig rest d (ded ++ [v])
        else
          collectConfig rest (dictInsert d (underscoreName key) v) ded
      | _ => .error .MalformedDirective
    else collectConfig rest d ded

/-- Validation of the accumulated income-deduction values: pydantic checks
`income_deduction_accounts : list[str]`, so every value must be a string. -/
def dedStrings : List CVal → Except GarbanzoError (List String)
  | [] => .ok []
  | CVal.str s :: rest => do
    let r ← dedStrings rest
    .ok (s :: r)
  | _ :: _ => .error .InvalidConfig

/-- The dict keys accepted by `GarbanzoConfig(**config_dict)` besides the
programmatically assigned `income_deduction_accounts`. -/
def configKeys : List String := ["default_start_date", "default_account_depth"]

/-- `GarbanzoConfig(**config_dict)` (config.py lines 14-18): pydantic with
`extra = 'forbid'` rejects unrecognized keys; `default_account_depth` must
be a non-negative integer; `default_start_date` must be a date/time value
(the source parses date strings with `dateparser`, library code outside the
repository; here a date value is required). -/
def GarbanzoConfig.ofDict (d : List (String × CVal)) (ded : List CVal) :
    Except GarbanzoError GarbanzoConfig :=
  if !(d.all fun kv => configKeys.contains kv.1) then .error .InvalidConfig
  else do
    let start ← (match d.lookup "default_start_date" with
      | none => .ok none
      | some (CVal.date dt) => .ok (some dt)
      | some _ => .error .InvalidConfig :
        Except GarbanzoError (Option Date))
    let depth ← (match d.lookup "default_account_depth" with
      | none => .ok (some 3)
      | some (CVal.int n) => if 0 ≤ n then .ok (some n) else .error .InvalidConfig
      | some _ => .error .InvalidConfig :
        Except GarbanzoError (Option Int))
    let de ← dedStrings ded
    .ok ⟨start, depth, de⟩

/-- The `Ledger` store (ledger.py lines 121-127): configuration, raw option
map, transaction/posting/price tables. -/
structure Ledger where
  config : GarbanzoConfig
  options : LedgerOptions
  transactions : List Transaction
  postings : List Posting
  prices : List Price

/-- `Ledger.make_config` (ledger.py lines 129-142): scan the custom
directives, then construct the validated configuration. -/
def Ledger.make_config (entries : List Custom) :
    Except GarbanzoError GarbanzoConfig := do
  let (d, ded) ← collectConfig entries [] []
  GarbanzoConfig.ofDict d ded

/-- `Ledger.main_currency` (ledger.py lines 168-172): the first operating
currency, else `"USD"`. -/
def Ledger.main_currency (l : Ledger) : String :=
  match l.options.operating_currency with
  | [] => "USD"
  | c :: _ => c

/-- The display name `options['name_<key>']` of a canonical category, as
read by `Ledger.account_types` (ledger.py line 177).  The five keys always
exist in beancount's option map; other keys are never accessed by the
source. -/
def Ledger.accountTypeName (l : Ledger) (key : String) : String :=
  if key = "assets" then l.options.name_assets
  else if key = "liabilities" then l.options.name_liabilities
  else if key = "income" then l.options.name_income
  else if key = "expenses" then l.options.name_expenses
  else if key = "equity" then l.options.name_equity
  else ""

/-- `ACCOUNT_TYPE_NAMES` (ledger.py line 21). -/
def ACCOUNT_TYPE_NAMES : List String :=
  ["assets", "liabilities", "income", "expenses", "equity"]

/-- `Ledger.account_types` (ledger.py lines 174-177): the mapping from
canonical category names to configured display names. -/
def Ledger.account_types (l : Ledger) : List (String × String) :=
  ACCOUNT_TYPE_NAMES.map fun key => (key, l.accountTypeName key)

/-- `Ledger.filter` (ledger.py lines 184-185): a new store with the same
configuration and options and each table narrowed by the filter. -/
def Ledger.filter (l : Ledger) (filter_options : FilterOptions) : Ledger :=
  ⟨l.config, l.options,
    filter_options.filter_dataframe Transaction.date l.transactions,
    filter_options.filter_dataframe Posting.date l.postings,
    filter_options.filter_dataframe Price.date l.prices⟩

/-- `currency = self.main_currency if (currency is None) else currency`
(ledger.py line 193). -/
def Ledger.resolveCurrency (l : Ledger) (currency : Option String) : String :=
  match currency with
  | none => l.main_currency
  | some c => c

/-- The posting-selection mask of `account_flows` (ledger.py line 195):
raw `str.startswith` on the account and equality on the currency. -/
def Ledger.flowMask (l : Ledger) (account_pfx : String)
    (currency : Option String) (p : Posting) : Bool :=
  py_startswith p.account account_pfx &&
    p.currency == l.resolveCurrency currency

/-- `df = self.postings[flags]` (ledger.py lines 195-196). -/
def Ledger.flowSelected (l : Ledger) (account_pfx : String)
    (currency : Option String) : List Posting :=
  l.postings.filter (l.flowMask account_pfx currency)

/-- The sign-adjustment step of `account_flows` (ledger.py lines 203-206):
when requested and the first path segment of the account equals the
configured income or liabilities display name, negate; otherwise leave the
value unchanged.  The source raises no exception in this branch. -/
def Ledger.signAdjusted (l : Ledger) (account_pfx : String)
    (adjust_sign : Bool) (v : ℚ) : ℚ :=
  if adjust_sign &&
      (decide (account_at_depth account_pfx 1 = l.accountTypeName "income") ||
       decide (account_at_depth account_pfx 1 = l.accountTypeName "liabilities"))
  then -v else v

/-- `account_flows` with `account_depth = None` (ledger.py lines 187-207):
the per-period sum of the amounts of the selected postings, with sign
adjustment.  A pandas series is modelled by this total function together
with the index `Ledger.flowPeriods`; at a period with no selected postings
the value is `0`, which is also what the series arithmetic of the callers
(`reindex(...).fillna(0.0)`, `pivot(...).fillna(0.0)`) produces there. -/
def Ledger.account_flows (l : Ledger) (account_pfx : String)
    (time_grain : TimeGrain) (currency : Option String)
    (adjust_sign : Bool) : Date → ℚ :=
  fun per =>
    l.signAdjusted account_pfx adjust_sign
      ((((l.flowSelected account_pfx currency).filter fun p =>
          decide (time_grain.periodStart p.date = per)).map Posting.amount).sum)

/-- The period index of the `account_flows` series: the period starts of
the selected postings, without duplicates. -/
def Ledger.flowPeriods (l : Ledger) (account_pfx : String)
    (time_grain : TimeGrain) (currency : Option String) : List Date :=
  ((l.flowSelected account_pfx currency).map fun p =>
    time_grain.periodStart p.date).dedup

/-- `account_flows` with `account_depth` set (ledger.py lines 199-202):
within each time bucket, group further by the account truncated to the
given depth and sum amounts per (period, truncated account) pair, with
sign adjustment. -/
def Ledger.account_flows_depth (l : Ledger) (account_pfx : String)
    (time_grain : TimeGrain) (currency : Option String)
    (account_depth : Int) (adjust_sign : Bool) : Date → String → ℚ :=
  fun per acct =>
    l.signAdjusted account_pfx adjust_sign
      (((((l.flowSelected account_pfx currency).filter fun p =>
            decide (time_grain.periodStart p.date = per)).filter fun p =>
            decide (account_at_depth p.account account_depth = acct)).map
          Posting.amount).sum)

/-- The truncated accounts occurring within one time bucket: the group keys
of the inner `groupby('account')` (ledger.py line 202). -/
def Ledger.flowAccountsAt (l : Ledger) (account_pfx : String)
    (time_grain : TimeGrain) (currency : Option String)
    (account_depth : Int) (per : Date) : List String :=
  (((l.flowSelected account_pfx currency).filter fun p =>
      decide (time_grain.periodStart p.date = per)).map fun p =>
    account_at_depth p.account account_depth).dedup

/-- Error-channel form of `account_flows`.  The source's adjust-sign branch
(ledger.py lines 203-206) contains no `raise`: an account root matching
neither the income nor the liabilities display name simply skips the
negation, so the function always returns normally and the result is always
`ok`. -/
def Ledger.account_flows_checked (l : Ledger) (account_pfx : String)
    (time_grain : TimeGrain) (currency : Option String)
    (adjust_sign : Bool) : Except GarbanzoError (Date → ℚ) :=
  Except.ok (l.account_flows account_pfx time_grain currency adjust_sign)

/-- The combined table of `income_expense_data` (ledger.py lines 209-226).
`index` is the pivot index (the periods of the income and expense series);
`income`/`expense` are the zero-filled pivot columns and `savings` their
difference, all modelled as total functions that are `0` at periods with no
matching postings (matching `pivot(...).fillna(0.0)`); `disposable` is the
`Disposable` column, whose assignment `combined['Disposable'] = disposable`
aligns on the disposable series' own index — the income periods — and
leaves the cell missing (NaN) at every other period of the table, modelled
by `Option`. -/
structure IncomeExpenseData where
  index : List Date
  income : Date → ℚ
  disposable : Date → Option ℚ
  expense : Date → ℚ
  savings : Date → ℚ

/-- `Ledger.income_expense_data` (ledger.py lines 209-226) with
`account_depth` left unset in `kwargs`: income and expense flows with
`adjust_sign = True`, the disposable series (income minus each configured
deduction account's sign-adjusted flows, each reindexed onto income's
period index with missing periods treated as zero — which the total-function
model evaluates directly), and `Savings = income - expenses`. -/
def Ledger.income_expense_data (l : Ledger) (time_grain : TimeGrain)
    (currency : Option String) : IncomeExpenseData :=
  { index :=
      (l.flowPeriods (l.accountTypeName "income") time_grain currency ++
        l.flowPeriods (l.accountTypeName "expenses") time_grain currency).dedup
    income := l.account_flows (l.accountTypeName "income") time_grain currency true
    disposable := fun per =>
      if per ∈ l.flowPeriods (l.accountTypeName "income") time_grain currency then
        some (l.account_flows (l.accountTypeName "income") time_grain currency true per -
          (l.config.income_deduction_accounts.map fun a =>
            l.account_flows a time_grain currency true per).sum)
      else none
    expense := l.account_flows (l.accountTypeName "expenses") time_grain currency true
    savings := fun per =>
      l.account_flows (l.accountTypeName "income") time_grain currency true per -
        l.account_flows (l.accountTypeName "expenses") time_grain currency true per }

/-- The values carried by `income-deduction-account` directives of the
recognized type, in directive order. -/
def dedDirectiveVals : List Custom → List CVal
  | [] => []
  | e :: rest =>
    (if e.type == "garbanzo-option" then
      match e.values with
      | [CVal.str key, v] =>
        if underscoreName key == "income_deduction_account" then [v] else []
      | _ => []
    else []) ++ dedDirectiveVals rest

/-- The last value assigned to a given config-dict key by the recognized
directives (the occurrence that a key → value overwrite keeps). -/
def lastDirectiveVal (k : String) : List Custom → Option CVal
  | [] => none
  | e :: rest =>
    match lastDirectiveVal k rest with
    | some v => some v
    | none =>
      if e.type == "garbanzo-option" then
        match e.values with
        | [CVal.str key, v] =>
          if underscoreName key == "income_deduction_account" then none
          else if underscoreName key == k then some v else none
        | _ => none
      else none

/-- A small concrete ledger used to evaluate claims: the spec's scenario
postings (section 8) plus an income posting, default option names, no
configured deduction accounts. -/
def sampleLedger : Ledger :=
  { config := {}
    options := {}
    transactions :=
      [{ date := ⟨2024, 1, 15⟩ }, { date := ⟨2024, 1, 20⟩ },
       { date := ⟨2024, 2, 1⟩ }]
    postings :=
      [{ txn_id := 0, date := ⟨2024, 1, 15⟩, account := "Expenses:Food",
         amount := 50, currency := "USD" },
       { txn_id := 1, date := ⟨2024, 1, 20⟩, account := "Expenses:Rent",
         amount := 1200, currency := "USD" },
       { txn_id := 2, date := ⟨2024, 2, 1⟩, account := "Expenses:Food",
         amount := 40, currency := "USD" },
       { txn_id := 0, date := ⟨2024, 1, 15⟩, account := "Income:Salary",
         amount := -3000, currency := "USD" }]
    prices := [] }

/-- A one-posting ledger whose only account merely starts with the string
`"Expenses"` without a segment boundary. -/
def rawMatchLedger : Ledger :=
  { config := {}
    options := {}
    transactions := [{ date := ⟨2024, 1, 15⟩ }]
    postings :=
      [{ txn_id := 0, date := ⟨2024, 1, 15⟩, account := "ExpensesOther",
         amount := 7, currency := "USD" }]
    prices := [] }

/-- The directive list of the spec's configuration example (section 8). -/
def exampleDirectives : List Custom :=
  [⟨"garbanzo-option", [CVal.str "default-account-depth", CVal.int 4]⟩,
   ⟨"garbanzo-option", [CVal.str "income-deduction-account", CVal.str "Expenses:Taxes"]⟩,
   ⟨"garbanzo-option", [CVal.str "income-deduction-account", CVal.str "Expenses:Retirement"]⟩]

/-- The configuration the example directives build. -/
def exampleConfig : GarbanzoConfig :=
  ⟨none, some 4, ["Expenses:Taxes", "Expenses:Retirement"]⟩

theorem splitChars_ne_nil (cs : List Char) : splitChars cs ≠ [] := by
  cases cs with
  | nil => simp [splitChars]
  | cons c cs =>
    simp only [splitChars]
    split
    · simp
    · split <;> simp

theorem joinChars_splitChars (cs : List Char) : joinChars (splitChars cs) = cs := by
  induction cs with
  | nil => rfl
  | cons c cs ih =>
    by_cases hc : c = ':'
    · subst hc
      simp only [splitChars, if_pos rfl]
      cases h : splitChars cs with
      | nil => exact absurd h (splitChars_ne_nil cs)
      | cons g gs =>
        rw [h] at ih
        simpa [joinChars] using ih
    · simp only [splitChars, if_neg hc]
      cases h : splitChars cs with
      | nil => exact absurd h (splitChars_ne_nil cs)
      | cons g gs =>
        rw [h] at ih
        cases gs with
        | nil =>
          simp only [joinChars] at ih ⊢
          rw [ih]
        | cons g' gs' =>
          simp only [joinChars] at ih ⊢
          rw [List.cons_append, ih]

theorem joinColon_split_account (s : String) : joinColon (split_account s) = s := by
  show (⟨joinChars (((splitChars s.data).map fun g => (⟨g⟩ : String)).map String.data)⟩ : String) = s
  rw [List.map_map]
  have : (String.data ∘ fun g => (⟨g⟩ : String)) = id := rfl
  rw [this, List.map_id, joinChars_splitChars]

theorem sum_map_neg' {β : Type} (K : List β) (f : β → ℚ) :
    (K.map fun b => -f b).sum = -(K.map f).sum := by
  induction K with
  | nil => simp
  | cons k K ih => simp [ih, neg_add, add_comm]

theorem sum_single {β : Type} [DecidableEq β] (K : List β) (hK : K.Nodup)
    (b0 : β) (hb : b0 ∈ K) (c : ℚ) :
    (K.map fun b => if b0 = b then c else 0).sum = c := by
  induction K with
  | nil => cases hb
  | cons k K ih =>
    rcases List.mem_cons.mp hb with h | h
    · subst h
      have hzero : (K.map fun b => if b0 = b then c else 0).sum = 0 := by
        apply List.sum_eq_zero
        intro x hx
        obtain ⟨b, hbK, rfl⟩ := List.mem_map.mp hx
        have : b0 ≠ b := fun he => (List.nodup_cons.mp hK).1 (he ▸ hbK)
        simp [this]
      simp [hzero]
    · have hk : b0 ≠ k := fun he => (List.nodup_cons.mp hK).1 (he ▸ h)
      simp [hk, ih (List.nodup_cons.mp hK).2 h]

theorem sum_fiber_key {α β : Type} [DecidableEq β] (L : List α) (K : List β)
    (hK : K.Nodup) (f : α → β) (g : α → ℚ)
    (hcov : ∀ x ∈ L, f x ∈ K) :
    (K.map fun b => ((L.filter fun x => decide (f x = b)).map g).sum).sum
      = (L.map g).sum := by
  induction L with
  | nil => simp
  | cons x L ih =>
    have hfx : f x ∈ K := hcov x (List.mem_cons_self x L)
    have hcov' : ∀ y ∈ L, f y ∈ K := fun y hy => hcov y (List.mem_cons_of_mem x hy)
    have hsplit : ∀ b, ((List.filter (fun y => decide (f y = b)) (x :: L)).map g).sum
        = (if f x = b then g x else 0) + ((L.filter fun y => decide (f y = b)).map g).sum := by
      intro b
      by_cases hb : f x = b
      · simp [List.filter_cons, hb]
      · simp [List.filter_cons, hb]
    calc (K.map fun b => ((List.filter (fun y => decide (f y = b)) (x :: L)).map g).sum).sum
        = (K.map fun b => (if f x = b then g x else 0)
              + ((L.filter fun y => decide (f y = b)).map g).sum).sum := by
          exact congrArg List.sum (List.map_congr_left fun b _ => hsplit b)
      _ = (K.map fun b => if f x = b then g x else 0).sum
            + (K.map fun b => ((L.filter fun y => decide (f y = b)).map g).sum).sum :=
          List.sum_map_add
      _ = g x + (L.map g).sum := by rw [sum_single K hK (f x) hfx (g x), ih hcov']
      _ = ((x :: L).map g).sum := by simp

theorem sum_fiber {α β : Type} [DecidableEq β] (L : List α) (f : α → β) (g : α → ℚ) :
    (((L.map f).dedup).map fun b => ((L.filter fun x => decide (f x = b)).map g).sum).sum
      = (L.map g).sum :=
  sum_fiber_key L ((L.map f).dedup) (List.nodup_dedup _) f g
    (fun x hx => List.mem_dedup.mpr (List.mem_map_of_mem f hx))



theorem lookup_append (d₁ d₂ : List (String × CVal)) (k : String) :
    (d₁ ++ d₂).lookup k =
      match d₁.lookup k with
      | some v => some v
      | none => d₂.lookup k := by
  induction d₁ with
  | nil => simp [List.lookup]
  | cons kv rest ih =>
    obtain ⟨k1, v1⟩ := kv
    simp only [List.cons_append, List.lookup_cons]
    cases k == k1 with
    | true => rfl
    | false => exact ih

theorem lookup_filter_ne (d : List (String × CVal)) (k k' : String) (h : k' ≠ k) :
    (d.filter fun kv => !(kv.1 == k)).lookup k' = d.lookup k' := by
  induction d with
  | nil => rfl
  | cons kv rest ih =>
    obtain ⟨k1, v1⟩ := kv
    by_cases hk : (k1 == k) = true
    · have hne : (k' == k1) = false :=
        beq_eq_false_iff_ne.mpr fun he => h (he.trans (beq_iff_eq.mp hk))
    
      simp only [List.filter_cons, hk, Bool.not_true, Bool.false_eq_true, if_false,
        List.lookup_cons, hne]
      exact ih
    · have hkf : (k1 == k) = false := Bool.of_not_eq_true hk
      simp only [List.filter_cons, hkf, Bool.not_false, if_true, List.lookup_cons]
      cases k' == k1 with
      | true => rfl
      | false => exact ih

theorem lookup_filter_self (d : List (String × CVal)) (k : String) :
    (d.filter fun kv => !(kv.1 == k)).lookup k = none := by
  induction d with
  | nil => rfl
  | cons kv rest ih =>
    obtain ⟨k1, v1⟩ := kv
    by_cases hk : (k1 == k) = true
    · simp only [List.filter_cons, hk, Bool.not_true, Bool.false_eq_true, if_false]
      exact ih
    · have hkf : (k1 == k) = false := Bool.of_not_eq_true hk
      have hkk : (k == k1) = false :=
        beq_eq_false_iff_ne.mpr fun he => by rw [he, beq_self_eq_true] at hkf; cases hkf
      simp only [List.filter_cons, hkf, Bool.not_false, if_true, List.lookup_cons, hkk]
      exact ih

theorem lookup_dictInsert_self (d : List (String × CVal)) (k : String) (v : CVal) :
    (dictInsert d k v).lookup k = some v := by
  unfold dictInsert
  rw [lookup_append, lookup_filter_self]
  simp [List.lookup_cons, beq_self_eq_true]

theorem lookup_dictInsert_other (d : List (String × CVal)) (k k' : String)
    (v : CVal) (h : k' ≠ k) :
    (dictInsert d k v).lookup k' = d.lookup k' := by
  unfold dictInsert
  rw [lookup_append, lookup_filter_ne d k k' h]
  cases hl : d.lookup k' with
  | some w => rfl
  | none => simp [List.lookup_cons, beq_eq_false_iff_ne.mpr h, List.lookup]


theorem collectConfig_ded (entries : List Custom) :
    ∀ d ded out, collectConfig entries d ded = .ok out →
      out.2 = ded ++ dedDirectiveVals entries := by
  induction entries with
  | nil =>
    intro d ded out h
    simp only [collectConfig] at h
    cases h
    simp [dedDirectiveVals]
  | cons e rest ih =>
    intro d ded out h
    unfold collectConfig at h
    unfold dedDirectiveVals
    split at h
    · split at h
      · split at h
        · have h2 := ih _ _ _ h
          rename_i ht a1 key v hval hk
          simp only [ht, if_true, hk]
          simpa [List.append_assoc] using h2
        · have h2 := ih _ _ _ h
          rename_i ht a1 key v hval hk
          simp only [ht, if_true, hk, Bool.false_eq_true, if_false]
          simpa using h2
      · cases h
    · have h2 := ih _ _ _ h
      rename_i ht
      simp only [Bool.of_not_eq_true ht, Bool.false_eq_true, if_false]
      simpa using h2

theorem collectConfig_lookup (k : String) (entries : List Custom) :
    ∀ d ded out, collectConfig entries d ded = .ok out →
      out.1.lookup k =
        (match lastDirectiveVal k entries with
         | some v => some v
         | none => d.lookup k) := by
  induction entries with
  | nil =>
    intro d ded out h
    simp only [collectConfig] at h
    cases h
    simp [lastDirectiveVal]
  | cons e rest ih =>
    intro d ded out h
    unfold collectConfig at h
    unfold lastDirectiveVal
    split at h
    · split at h
      · split at h
        · have h2 := ih _ _ _ h
          rename_i ht a1 key v hval hk
          rw [h2]
          cases hl : lastDirectiveVal k rest with
          | some w => simp [hl]
          | none => simp [hl, ht, hk]
        · have h2 := ih _ _ _ h
          rename_i ht a1 key v hval hk
          rw [h2]
          cases hl : lastDirectiveVal k rest with
          | some w => simp [hl]
          | none =>
            simp only [hl, ht, if_true, hk, Bool.false_eq_true, if_false]
            by_cases hkey : (underscoreName key == k) = true
            · have hkeq : underscoreName key = k := beq_iff_eq.mp hkey
              simp only [hkey, if_true]
              rw [← hkeq, lookup_dictInsert_self]
            · have hne : k ≠ underscoreName key :=
                Ne.symm (beq_eq_false_iff_ne.mp (Bool.of_not_eq_true hkey))
              simp only [Bool.of_not_eq_true hkey, Bool.false_eq_true, if_false]
              rw [lookup_dictInsert_other _ _ _ _ hne]
      · cases h
    · have h2 := ih _ _ _ h
      rename_i ht
      rw [h2]
      cases hl : lastDirectiveVal k rest with
      | some w => simp [hl]
      | none => simp [hl, Bool.of_not_eq_true ht]

theorem dedStrings_ok : ∀ ded xs, dedStrings ded = .ok xs → xs.map CVal.str = ded := by
  intro ded
  induction ded with
  | nil =>
    intro xs h
    simp only [dedStrings] at h
    cases h
    rfl
  | cons v rest ih =>
    intro xs h
    cases v with
    | str s =>
      simp only [dedStrings] at h
      cases hr : dedStrings rest with
      | ok r =>
        rw [hr] at h
        simp only [bind, Except.bind] at h
        cases h
        simp [ih r hr]
      | error err =>
        rw [hr] at h
        simp only [bind, Except.bind] at h
        cases h
    | int n => simp [dedStrings] at h
    | date dt => simp [dedStrings] at h

theorem except_bind_ok {ε α β : Type} (x : Except ε α) (f : α → Except ε β)
    (c : β) (h : (x >>= f) = .ok c) : ∃ a, x = .ok a ∧ f a = .ok c := by
  cases x with
  | ok a => exact ⟨a, rfl, h⟩
  | error e =>
    simp only [bind, Except.bind] at h
    cases h

theorem ofDict_fields (d : List (String × CVal)) (ded : List CVal)
    (cfg : GarbanzoConfig) (h : GarbanzoConfig.ofDict d ded = .ok cfg) :
    cfg.income_deduction_accounts.map CVal.str = ded
    ∧ (d.lookup "default_account_depth" = none → cfg.default_account_depth = some 3)
    ∧ (∀ n : Int, d.lookup "default_account_depth" = some (CVal.int n) →
        cfg.default_account_depth = some n) := by
  unfold GarbanzoConfig.ofDict at h
  split at h
  · cases h
  · obtain ⟨start, hstart, h⟩ := except_bind_ok _ _ _ h
    obtain ⟨depth, hdepth, h⟩ := except_bind_ok _ _ _ h
    obtain ⟨de, hde, h⟩ := except_bind_ok _ _ _ h
    cases h
    refine ⟨dedStrings_ok ded de hde, ?_, ?_⟩
    · intro hnone
      rw [hnone] at hdepth
      cases hdepth
      rfl
    · intro n hsome
      rw [hsome] at hdepth
      have hdepth' : (if 0 ≤ n then (Except.ok (some n) : Except GarbanzoError (Option Int))
          else .error .InvalidConfig) = .ok depth := hdepth
      by_cases hn : 0 ≤ n
      · rw [if_pos hn] at hdepth'
        cases hdepth'
        rfl
      · rw [if_neg hn] at hdepth'
        cases hdepth' 

theorem filter_dataframe_eq_filter {α : Type} (fo : FilterOptions)
    (date : α → Date) (df : List α) :
    fo.filter_dataframe date df = df.filter fun r => fo.matches (date r) := by
  rcases fo with ⟨mn, mx⟩
  unfold FilterOptions.filter_dataframe FilterOptions.matches
  cases mn <;> cases mx <;>
    simp [List.filter_filter, Bool.and_comm, List.filter_true]

theorem filter_dataframe_sublist {α : Type} (fo : FilterOptions)
    (date : α → Date) (df : List α) :
    (fo.filter_dataframe date df).Sublist df := by
  rw [filter_dataframe_eq_filter]
  exact List.filter_sublist df

/-- C7: applying a filter keeps exactly the rows whose date satisfies
`matches` (min bound absent or ≤ date, max bound absent or date ≤ max), as
a subsequence of the input preserving the original row order (the embedding
is pure, mirroring the frozen dataclass: the input list itself is never
changed), and a filter with both bounds unset is the identity on the
rows. -/
theorem C7_filter_semantics {α : Type} (fo : FilterOptions)
    (date : α → Date) (df : List α) :
    fo.filter_dataframe date df = df.filter (fun r => fo.matches (date r))
    ∧ (fo.filter_dataframe date df).Sublist df
    ∧ FilterOptions.filter_dataframe ⟨none, none⟩ date df = df :=
  ⟨filter_dataframe_eq_filter fo date df,
   filter_dataframe_sublist fo date df, rfl⟩

/-- C10: `Ledger.filter` returns a new store sharing the original's
configuration and options, whose transaction/posting/price tables are
exactly the filter-narrowed originals (subsequences of the original
tables).  The embedding is pure — mirroring the source's frozen dataclass
and copy-producing pandas operations — so the original store's tables are
left unchanged by construction. -/
theorem C10_filter_frame (l : Ledger) (fo : FilterOptions) :
    (l.filter fo).config = l.config
    ∧ (l.filter fo).options = l.options
    ∧ (l.filter fo).transactions = fo.filter_dataframe Transaction.date l.transactions
    ∧ (l.filter fo).postings = fo.filter_dataframe Posting.date l.postings
    ∧ (l.filter fo).prices = fo.filter_dataframe Price.date l.prices
    ∧ (l.filter fo).transactions.Sublist l.transactions
    ∧ (l.filter fo).postings.Sublist l.postings
    ∧ (l.filter fo).prices.Sublist l.prices :=
  ⟨rfl, rfl, rfl, rfl, rfl,
   filter_dataframe_sublist fo Transaction.date l.transactions,
   filter_dataframe_sublist fo Posting.date l.postings,
   filter_dataframe_sublist fo Price.date l.prices⟩

/-- C9 counterexample: the claim states that every depth ≤ 0 yields the
empty path, but `account_at_depth "A:B" (-1)` is Python `l[:-1]` on the
segments and returns `"A"`. -/
theorem C9_counterexample :
    (-1 : Int) ≤ 0 ∧ account_at_depth "A:B" (-1) ≠ ""
    ∧ account_at_depth "A:B" (-1) = "A" := by
  refine ⟨by decide, ?_, ?_⟩ <;> decide

/-- C9 (amended): depth 0 yields the empty path; a negative depth drops the
last `|depth|` segments (Python slice semantics), yielding the empty path
only when `|depth|` reaches the number of segments; and a path with at most
`depth` segments is returned unchanged. -/
theorem C9_amended (account : String) (d : Int) :
    (d = 0 → account_at_depth account d = "")
    ∧ (d < 0 → account_at_depth account d =
        joinColon ((split_account account).take
          ((split_account account).length - (-d).toNat)))
    ∧ (d < 0 → ((split_account account).length : Int) ≤ -d →
        account_at_depth account d = "")
    ∧ (0 < d → ((split_account account).length : Int) ≤ d →
        account_at_depth account d = account) := by
  refine ⟨?_, ?_, ?_, ?_⟩
  · intro h0
    subst h0
    rfl
  · intro hneg
    unfold account_at_depth pyTake
    rw [if_neg (not_le.mpr hneg)]
  · intro hneg hlen
    unfold account_at_depth pyTake
    rw [if_neg (not_le.mpr hneg)]
    have hz : (split_account account).length - (-d).toNat = 0 := by omega
    rw [hz, List.take_zero]
    rfl
  · intro hpos hlen
    unfold account_at_depth pyTake
    rw [if_pos (le_of_lt hpos)]
    have hle : (split_account account).length ≤ d.toNat := by omega
    rw [List.take_of_length_le hle]
    exact joinColon_split_account account

/-- C9 witness: the amended statement evaluated at concrete inputs — a
two-segment path at depth 5 is returned unchanged, and depth -2 empties
it. -/
theorem C9_witness :
    ((0 : Int) < 5 ∧ ((split_account "A:B").length : Int) ≤ 5
      ∧ account_at_depth "A:B" 5 = "A:B")
    ∧ ((-2 : Int) < 0 ∧ ((split_account "A:B").length : Int) ≤ 2
      ∧ account_at_depth "A:B" (-2) = "") :=
  ⟨⟨by decide, by decide,
    (C9_amended "A:B" 5).2.2.2 (by decide) (by decide)⟩,
   ⟨by decide, by decide,
    (C9_amended "A:B" (-2)).2.2.1 (by decide) (by decide)⟩⟩

/-- C1: evaluated on a ledger whose only posting has account
`"ExpensesOther"`, `account_flows` with prefix `"Expenses"` (ledger.py line
195, raw `str.startswith`) wrongly selects the posting and returns its
amount for 2024-01, though `"Expenses"` is not a segment-boundary prefix of
`"ExpensesOther"` — the selection the claim (and spec section 4.6 step 1)
requires would leave the flow empty. -/
theorem C1_code_bug_eval :
    rawMatchLedger.account_flows "Expenses" TimeGrain.monthly (some "USD")
        false ⟨2024, 1, 1⟩ = 7
    ∧ py_startswith "ExpensesOther" "Expenses" = true
    ∧ segmentPfx "Expenses" "ExpensesOther" = false := by
  refine ⟨?_, by decide, by decide⟩
  simp +decide [Ledger.account_flows, Ledger.flowSelected, Ledger.flowMask,
    Ledger.resolveCurrency, Ledger.main_currency, Ledger.signAdjusted,
    rawMatchLedger, TimeGrain.periodStart, List.filter]

/-- C3: in the `income_expense_data` table the Savings column is, at every
period, exactly the income column minus the expense column (both columns
being the zero-filled sign-adjusted flow values of the configured income
and expense accounts). -/
theorem C3_savings_identity (l : Ledger) (time_grain : TimeGrain)
    (currency : Option String) (per : Date) :
    (l.income_expense_data time_grain currency).savings per
      = (l.income_expense_data time_grain currency).income per
        - (l.income_expense_data time_grain currency).expense per
    ∧ (l.income_expense_data time_grain currency).income per
      = l.account_flows (l.accountTypeName "income") time_grain currency true per
    ∧ (l.income_expense_data time_grain currency).expense per
      = l.account_flows (l.accountTypeName "expenses") time_grain currency true per :=
  ⟨rfl, rfl, rfl⟩

/-- C2: for every store, account prefix, time grain, currency, non-negative
depth and period, the single per-period value of `account_flows` with
`account_depth` unset equals the sum over all depth-truncated account paths
occurring in that period of the (period, account) values of `account_flows`
with `account_depth` set, all other arguments equal. -/
theorem C2_depth_sum_decomposition (l : Ledger) (account_pfx : String)
    (time_grain : TimeGrain) (currency : Option String) (d : Int)
    (hd : 0 ≤ d) (adjust_sign : Bool) (per : Date) :
    ((l.flowAccountsAt account_pfx time_grain currency d per).map fun a =>
        l.account_flows_depth account_pfx time_grain currency d adjust_sign per a).sum
      = l.account_flows account_pfx time_grain currency adjust_sign per := by
  clear hd
  unfold Ledger.account_flows Ledger.account_flows_depth Ledger.flowAccountsAt
    Ledger.signAdjusted
  by_cases hc : (adjust_sign &&
      (decide (account_at_depth account_pfx 1 = l.accountTypeName "income") ||
       decide (account_at_depth account_pfx 1 = l.accountTypeName "liabilities"))) = true
  · simp only [hc, if_true]
    rw [sum_map_neg']
    rw [sum_fiber ((l.flowSelected account_pfx currency).filter fun p =>
        decide (time_grain.periodStart p.date = per))
      (fun p => account_at_depth p.account d) Posting.amount]
  · simp only [Bool.of_not_eq_true hc, Bool.false_eq_true, if_false]
    exact sum_fiber ((l.flowSelected account_pfx currency).filter fun p =>
        decide (time_grain.periodStart p.date = per))
      (fun p => account_at_depth p.account d) Posting.amount

/-- C2 witness: the decomposition evaluated at the sample ledger, prefix
`"Expenses"`, monthly grain, depth 2, period 2024-01. -/
theorem C2_witness :
    (0 : Int) ≤ 2
    ∧ ((sampleLedger.flowAccountsAt "Expenses" TimeGrain.monthly none 2 ⟨2024, 1, 1⟩).map
        fun a => sampleLedger.account_flows_depth "Expenses" TimeGrain.monthly none 2 false
          ⟨2024, 1, 1⟩ a).sum
      = sampleLedger.account_flows "Expenses" TimeGrain.monthly none false ⟨2024, 1, 1⟩ :=
  ⟨by decide,
   C2_depth_sum_decomposition sampleLedger "Expenses" TimeGrain.monthly none 2
     (by decide) false ⟨2024, 1, 1⟩⟩

/-- C4: when the first path segment of the account prefix equals the
configured display name of the income or of the liabilities category,
`account_flows` with `adjust_sign` on is the pointwise negation of
`account_flows` with `adjust_sign` off — period by period, and per
depth-grouped account row. -/
theorem C4_adjust_sign_negation (l : Ledger) (account_pfx : String)
    (time_grain : TimeGrain) (currency : Option String)
    (hroot : account_at_depth account_pfx 1 = l.accountTypeName "income"
      ∨ account_at_depth account_pfx 1 = l.accountTypeName "liabilities") :
    (∀ per, l.account_flows account_pfx time_grain currency true per
      = -l.account_flows account_pfx time_grain currency false per)
    ∧ ∀ per acct (d : Int),
        l.account_flows_depth account_pfx time_grain currency d true per acct
          = -l.account_flows_depth account_pfx time_grain currency d false per acct := by
  have hb : (decide (account_at_depth account_pfx 1 = l.accountTypeName "income") ||
      decide (account_at_depth account_pfx 1 = l.accountTypeName "liabilities")) = true := by
    rcases hroot with h | h <;> simp [h]
  constructor
  · intro per
    unfold Ledger.account_flows Ledger.signAdjusted
    simp [hb]
  · intro per acct d
    unfold Ledger.account_flows_depth Ledger.signAdjusted
    simp [hb]

/-- C4 witness: on the sample ledger the prefix `"Income:Salary"` roots at
the income display name, and the adjusted January flow is the negation of
the unadjusted one. -/
theorem C4_witness :
    account_at_depth "Income:Salary" 1 = sampleLedger.accountTypeName "income"
    ∧ sampleLedger.account_flows "Income:Salary" TimeGrain.monthly none true ⟨2024, 1, 1⟩
      = -sampleLedger.account_flows "Income:Salary" TimeGrain.monthly none false ⟨2024, 1, 1⟩ :=
  ⟨by decide,
   (C4_adjust_sign_negation sampleLedger "Income:Salary" TimeGrain.monthly none
     (Or.inl (by decide))).1 ⟨2024, 1, 1⟩⟩

/-- C5 counterexample: the claim states that `account_flows` fails with
`UnknownAccountType` whenever `adjust_sign` is requested and the prefix
root matches no configured display name, but at the concrete root
`"Garbage"` — matching none of the five display names — the call returns
normally (ledger.py lines 203-206 contain no raise). -/
theorem C5_counterexample :
    account_at_depth "Garbage:Stuff" 1 ∉
      ACCOUNT_TYPE_NAMES.map sampleLedger.accountTypeName
    ∧ sampleLedger.account_flows_checked "Garbage:Stuff" TimeGrain.monthly none true
      ≠ .error GarbanzoError.UnknownAccountType
    ∧ sampleLedger.account_flows_checked "Garbage:Stuff" TimeGrain.monthly none true
      = .ok (sampleLedger.account_flows "Garbage:Stuff" TimeGrain.monthly none true) := by
  refine ⟨by decide, ?_, rfl⟩
  intro h
  simp [Ledger.account_flows_checked] at h

/-- C5 (amended): `account_flows` never fails; when `adjust_sign` is
requested and the prefix root matches neither the income nor the
liabilities display name it returns normally with the amounts left
unnegated (equal to the `adjust_sign = False` flows). -/
theorem C5_amended (l : Ledger) (account_pfx : String) (time_grain : TimeGrain)
    (currency : Option String)
    (h1 : account_at_depth account_pfx 1 ≠ l.accountTypeName "income")
    (h2 : account_at_depth account_pfx 1 ≠ l.accountTypeName "liabilities") :
    l.account_flows_checked account_pfx time_grain currency true
      = .ok (l.account_flows account_pfx time_grain currency true)
    ∧ ∀ per, l.account_flows account_pfx time_grain currency true per
        = l.account_flows account_pfx time_grain currency false per := by
  refine ⟨rfl, fun per => ?_⟩
  unfold Ledger.account_flows Ledger.signAdjusted
  simp [h1, h2]

/-- C5 witness: the amended statement at the unrecognized root
`"Garbage"`. -/
theorem C5_witness :
    account_at_depth "Garbage:Stuff" 1 ≠ sampleLedger.accountTypeName "income"
    ∧ account_at_depth "Garbage:Stuff" 1 ≠ sampleLedger.accountTypeName "liabilities"
    ∧ sampleLedger.account_flows "Garbage:Stuff" TimeGrain.monthly none true ⟨2024, 1, 1⟩
      = sampleLedger.account_flows "Garbage:Stuff" TimeGrain.monthly none false ⟨2024, 1, 1⟩ :=
  ⟨by decide, by decide,
   (C5_amended sampleLedger "Garbage:Stuff" TimeGrain.monthly none
     (by decide) (by decide)).2 ⟨2024, 1, 1⟩⟩

/-- C6 counterexample: on the sample ledger (income postings only in
January, an expense posting in February, no configured deductions, so the
claim's non-negativity hypothesis holds vacuously), February 2024 is a
period of the `income_expense_data` result, yet its Disposable cell is
missing — the disposable series is indexed by income's periods only, so the
column assignment leaves the other result periods without a value (NaN in
pandas), and the claimed comparison with the income column cannot hold
there. -/
theorem C6_counterexample :
    sampleLedger.config.income_deduction_accounts = []
    ∧ (⟨2024, 2, 1⟩ : Date) ∈
        (sampleLedger.income_expense_data TimeGrain.monthly none).index
    ∧ (sampleLedger.income_expense_data TimeGrain.monthly none).disposable
        ⟨2024, 2, 1⟩ = none := by
  refine ⟨rfl, by decide, by decide⟩

/-- C6 (amended): whenever every sign-adjusted deduction-account flow value
is non-negative, then at every period at which the Disposable column has a
value (the periods of income's index; at the remaining result periods the
cell is missing), that value is income minus the sum of the deduction
flows — each evaluated at that period, which is exactly the reindex of the
deduction series onto income's index with missing periods as zero — and is
at most the income column value. -/
theorem C6_amended (l : Ledger) (time_grain : TimeGrain)
    (currency : Option String)
    (hnn : ∀ a ∈ l.config.income_deduction_accounts, ∀ per : Date,
      0 ≤ l.account_flows a time_grain currency true per)
    (per : Date) (v : ℚ)
    (hv : (l.income_expense_data time_grain currency).disposable per = some v) :
    v ≤ (l.income_expense_data time_grain currency).income per
    ∧ v = (l.income_expense_data time_grain currency).income per
        - (l.config.income_deduction_accounts.map fun a =>
            l.account_flows a time_grain currency true per).sum := by
  have hsum : 0 ≤ (l.config.income_deduction_accounts.map fun a =>
      l.account_flows a time_grain currency true per).sum := by
    apply List.sum_nonneg
    intro x hx
    obtain ⟨a, ha, rfl⟩ := List.mem_map.mp hx
    exact hnn a ha per
  unfold Ledger.income_expense_data at hv ⊢
  simp only at hv ⊢
  split at hv
  · cases hv
    exact ⟨sub_le_self _ hsum, rfl⟩
  · cases hv

/-- C6 witness: on the sample ledger (no configured deductions, so the
non-negativity hypothesis holds) the January Disposable value is 3000 and
the amended bound holds there. -/
theorem C6_witness :
    (sampleLedger.income_expense_data TimeGrain.monthly none).disposable ⟨2024, 1, 1⟩
      = some 3000
    ∧ (3000 : ℚ) ≤ (sampleLedger.income_expense_data TimeGrain.monthly none).income
        ⟨2024, 1, 1⟩ := by
  have hded : ∀ a ∈ sampleLedger.config.income_deduction_accounts, ∀ per : Date,
      0 ≤ sampleLedger.account_flows a TimeGrain.monthly none true per := by
    intro a ha
    simp [sampleLedger] at ha
  have hv : (sampleLedger.income_expense_data TimeGrain.monthly none).disposable
      ⟨2024, 1, 1⟩ = some 3000 := by
    simp +decide [Ledger.income_expense_data, Ledger.flowPeriods, Ledger.flowSelected,
      Ledger.flowMask, Ledger.resolveCurrency, Ledger.main_currency, Ledger.accountTypeName,
      Ledger.signAdjusted, Ledger.account_flows, sampleLedger, TimeGrain.periodStart,
      List.filter]
  exact ⟨hv,
    (C6_amended sampleLedger TimeGrain.monthly none hded ⟨2024, 1, 1⟩ 3000 hv).1⟩

/-- C8: a configuration successfully built from custom directives of the
recognized type collects every value of the key `income-deduction-account`
— in directive order — into `income_deduction_accounts`, while the
`default-account-depth` field holds the last assigned occurrence (the
key → value overwrite), defaulting to 3 when the key never occurs. -/
theorem C8_make_config (entries : List Custom) (cfg : GarbanzoConfig)
    (h : Ledger.make_config entries = .ok cfg) :
    cfg.income_deduction_accounts.map CVal.str = dedDirectiveVals entries
    ∧ (lastDirectiveVal "default_account_depth" entries = none →
        cfg.default_account_depth = some 3)
    ∧ (∀ n : Int,
        lastDirectiveVal "default_account_depth" entries = some (CVal.int n) →
        cfg.default_account_depth = some n) := by
  unfold Ledger.make_config at h
  obtain ⟨out, hout, hod⟩ := except_bind_ok _ _ _ h
  obtain ⟨d, ded⟩ := out
  have hded := collectConfig_ded entries _ _ _ hout
  have hlook := collectConfig_lookup "default_account_depth" entries _ _ _ hout
  simp only [List.nil_append] at hded
  have hfields := ofDict_fields d ded cfg hod
  refine ⟨?_, ?_, ?_⟩
  · rw [hfields.1, hded]
  · intro hnone
    rw [hnone] at hlook
    exact hfields.2.1 (by simpa [List.lookup] using hlook)
  · intro n hsome
    rw [hsome] at hlook
    exact hfields.2.2 n hlook

/-- C8 witness: the spec's example — directives assigning depth 4 and two
deduction accounts produce depth 4 and the two-element list in directive
order. -/
theorem C8_witness :
    Ledger.make_config exampleDirectives = .ok exampleConfig
    ∧ exampleConfig.income_deduction_accounts.map CVal.str
      = dedDirectiveVals exampleDirectives
    ∧ exampleConfig.default_account_depth = some 4 := by
  have h : Ledger.make_config exampleDirectives = .ok exampleConfig := by rfl
  exact ⟨h, (C8_make_config exampleDirectives exampleConfig h).1,
    (C8_make_config exampleDirectives exampleConfig h).2.2 4 (by rfl)⟩
